import Mathlib

/-
  Verification development for the Bloxs OData proxy worker.

  The definitions below are a shallow embedding of the Cloudflare worker
  source. Query strings are modelled as ordered lists of key-value pairs,
  mirroring URLSearchParams. JavaScript string primitives are modelled by
  kernel-reducible functions over character lists. JSON values are modelled
  by an inductive tree. Machine integers are modelled by Int.
-/

/-! ## JavaScript string primitives, modelled over character lists -/

/-- Whitespace recognised by the JavaScript regexp class backslash-s,
restricted to the ASCII range used by the proxy. -/
def isJsSpace (c : Char) : Bool :=
  c = ' ' || c = '\t' || c = '\n' || c = '\r' || c = Char.ofNat 11 || c = Char.ofNat 12

/-- Drop whitespace from both ends of a character list. -/
def trimChars (cs : List Char) : List Char :=
  ((cs.dropWhile isJsSpace).reverse.dropWhile isJsSpace).reverse

/-- Model of String.prototype.trim. -/
def jsTrim (s : String) : String := ⟨trimChars s.data⟩

/-- ASCII lower-casing of one character, modelling toLowerCase on the
ASCII identifiers and names used by the worker. -/
def lowerChar (c : Char) : Char :=
  if 'A' ≤ c ∧ c ≤ 'Z' then Char.ofNat (c.toNat + 32) else c

/-- Model of String.prototype.toLowerCase for ASCII content. -/
def jsToLower (s : String) : String := ⟨s.data.map lowerChar⟩

/-- Model of String.prototype.startsWith. -/
def strStartsWith (s pat : String) : Bool := pat.data.isPrefixOf s.data

/-- Model of String.prototype.endsWith. -/
def strEndsWith (s pat : String) : Bool := pat.data.isSuffixOf s.data

/-- Does the pattern occur as a contiguous run inside the haystack list. -/
def containsSubList (needle : List Char) : List Char → Bool
  | [] => needle.isEmpty
  | c :: rest => needle.isPrefixOf (c :: rest) || containsSubList needle rest

/-- Model of String.prototype.includes. -/
def strIncludes (s pat : String) : Bool := containsSubList pat.data s.data

/-- Numeric value of a list of decimal digit characters. -/
def digitsVal (ds : List Char) : Nat := ds.foldl (fun n c => n * 10 + (c.toNat - 48)) 0

/-- Model of Number.parseInt with radix 10: skip leading whitespace, read an
optional sign, then the longest run of decimal digits; none models NaN. -/
def parseIntJS (s : String) : Option Int :=
  let cs := s.data.dropWhile isJsSpace
  let signAndRest : Int × List Char :=
    match cs with
    | '+' :: r => (1, r)
    | '-' :: r => (-1, r)
    | r => (1, r)
  let ds := signAndRest.2.takeWhile Char.isDigit
  if ds.isEmpty then none else some (signAndRest.1 * (digitsVal ds : Int))

/-- Decimal digits of a natural number; the first argument is fuel. -/
def natDigitsAux : Nat → Nat → List Char
  | 0, _ => []
  | _ + 1, 0 => []
  | fuel + 1, n => natDigitsAux fuel (n / 10) ++ [Char.ofNat (48 + n % 10)]

/-- Decimal rendering of a natural number. -/
def natToDecString (n : Nat) : String :=
  if n = 0 then "0" else ⟨natDigitsAux (n + 1) n⟩

/-- Model of the JavaScript String(...) conversion on integral numbers. -/
def intToDecString (i : Int) : String :=
  if i < 0 then ⟨'-' :: (natToDecString i.natAbs).data⟩ else natToDecString i.natAbs

/-! ## JSON value model -/

/-- JSON values as produced by JSON.parse. Numbers are abstracted as
integers; the proxy never inspects numeric values. Object field lists model
JavaScript objects, whose keys are unique after parsing. -/
inductive Json where
  | null
  | bool (b : Bool)
  | num (n : Int)
  | str (s : String)
  | arr (items : List Json)
  | obj (fields : List (String × Json))

/-- The FORBIDDEN_OWNER_NAMES constant of the worker. -/
def forbiddenOwnerNames : List String :=
  ["wals huren", "greenhorn properties bv"]

/-- Normalisation applied to every string node before the forbidden-name
comparison: current.trim().toLowerCase(). -/
def normalizeOwnerName (s : String) : String := jsToLower (jsTrim s)

mutual
/-- Model of objectContainsForbiddenOwnerName: depth-first search of the
transitive value graph for a string whose normalised form is forbidden,
skipping object keys that start with the at-odata marker. The source walks
an explicit stack with an identity-visited set; on the acyclic trees that
JSON.parse produces this is equivalent to structural recursion. -/
def objectContainsForbiddenOwnerName : Json → Bool
  | Json.null => false
  | Json.bool _ => false
  | Json.num _ => false
  | Json.str s => forbiddenOwnerNames.contains (normalizeOwnerName s)
  | Json.arr items => anyItemForbidden items
  | Json.obj fields => anyFieldForbidden fields
/-- Search of the items of a JSON array. -/
def anyItemForbidden : List Json → Bool
  | [] => false
  | j :: rest => objectContainsForbiddenOwnerName j || anyItemForbidden rest
/-- Search of the fields of a JSON object, skipping at-odata keys. -/
def anyFieldForbidden : List (String × Json) → Bool
  | [] => false
  | (k, v) :: rest =>
    (if strStartsWith k "@odata." then false else objectContainsForbiddenOwnerName v)
      || anyFieldForbidden rest
end

/-- Specification-level reachability predicate: some string node of the
transitive value graph, reached without descending through keys that start
with the at-odata marker, normalises to a forbidden owner name. -/
inductive JsonHasForbidden : Json → Prop where
  | strNode (s : String) :
      normalizeOwnerName s ∈ forbiddenOwnerNames → JsonHasForbidden (Json.str s)
  | arrNode {j : Json} {items : List Json} :
      j ∈ items → JsonHasForbidden j → JsonHasForbidden (Json.arr items)
  | objNode {k : String} {v : Json} {fields : List (String × Json)} :
      (k, v) ∈ fields → strStartsWith k "@odata." = false →
      JsonHasForbidden v → JsonHasForbidden (Json.obj fields)

mutual
theorem objectContainsForbiddenOwnerName_iff :
    ∀ j : Json, objectContainsForbiddenOwnerName j = true ↔ JsonHasForbidden j
  | Json.null => by
      rw [objectContainsForbiddenOwnerName]
      constructor
      · intro h; cases h
      · intro h; cases h
  | Json.bool b => by
      rw [objectContainsForbiddenOwnerName]
      constructor
      · intro h; cases h
      · intro h; cases h
  | Json.num n => by
      rw [objectContainsForbiddenOwnerName]
      constructor
      · intro h; cases h
      · intro h; cases h
  | Json.str s => by
      rw [objectContainsForbiddenOwnerName]
      constructor
      · intro h
        exact JsonHasForbidden.strNode s (by simpa using h)
      · intro h
        cases h with
        | strNode _ hm => simpa using hm
  | Json.arr items => by
      rw [objectContainsForbiddenOwnerName]
      constructor
      · intro h
        obtain ⟨j, hj, hf⟩ := (anyItemForbidden_iff items).mp h
        exact JsonHasForbidden.arrNode hj hf
      · intro h
        cases h with
        | arrNode hj hf => exact (anyItemForbidden_iff items).mpr ⟨_, hj, hf⟩
  | Json.obj fields => by
      rw [objectContainsForbiddenOwnerName]
      constructor
      · intro h
        obtain ⟨k, v, hkv, hns, hf⟩ := (anyFieldForbidden_iff fields).mp h
        exact JsonHasForbidden.objNode hkv hns hf
      · intro h
        cases h with
        | objNode hkv hns hf => exact (anyFieldForbidden_iff fields).mpr ⟨_, _, hkv, hns, hf⟩
theorem anyItemForbidden_iff :
    ∀ l : List Json, anyItemForbidden l = true ↔ ∃ j ∈ l, JsonHasForbidden j
  | [] => by
      rw [anyItemForbidden]
      simp
  | j :: rest => by
      rw [anyItemForbidden, Bool.or_eq_true]
      constructor
      · rintro (h | h)
        · exact ⟨j, List.mem_cons_self j rest, (objectContainsForbiddenOwnerName_iff j).mp h⟩
        · obtain ⟨j', hj', hf⟩ := (anyItemForbidden_iff rest).mp h
          exact ⟨j', List.mem_cons_of_mem _ hj', hf⟩
      · rintro ⟨j', hj', hf⟩
        rcases List.mem_cons.mp hj' with h | h
        · subst h
          exact Or.inl ((objectContainsForbiddenOwnerName_iff j').mpr hf)
        · exact Or.inr ((anyItemForbidden_iff rest).mpr ⟨j', h, hf⟩)
theorem anyFieldForbidden_iff :
    ∀ l : List (String × Json), anyFieldForbidden l = true ↔
      ∃ k v, (k, v) ∈ l ∧ strStartsWith k "@odata." = false ∧ JsonHasForbidden v
  | [] => by
      rw [anyFieldForbidden]
      simp
  | (k, v) :: rest => by
      rw [anyFieldForbidden, Bool.or_eq_true]
      by_cases hks : strStartsWith k "@odata." = true
      case pos =>
        rw [if_pos hks]
        constructor
        · rintro (h | h)
          · cases h
          · obtain ⟨k', v', hkv, hns, hf⟩ := (anyFieldForbidden_iff rest).mp h
            exact ⟨k', v', List.mem_cons_of_mem _ hkv, hns, hf⟩
        · rintro ⟨k', v', hkv, hns, hf⟩
          rcases List.mem_cons.mp hkv with h | h
          · rw [Prod.mk.injEq] at h
            rw [h.1] at hns
            rw [hns] at hks
            exact Bool.noConfusion hks
          · exact Or.inr ((anyFieldForbidden_iff rest).mpr ⟨k', v', h, hns, hf⟩)
      case neg =>
        have hs : strStartsWith k "@odata." = false := Bool.eq_false_iff.mpr hks
        rw [if_neg hks]
        constructor
        · rintro (h | h)
          · exact ⟨k, v, List.mem_cons_self _ rest, hs, (objectContainsForbiddenOwnerName_iff v).mp h⟩
          · obtain ⟨k', v', hkv, hns, hf⟩ := (anyFieldForbidden_iff rest).mp h
            exact ⟨k', v', List.mem_cons_of_mem _ hkv, hns, hf⟩
        · rintro ⟨k', v', hkv, hns, hf⟩
          rcases List.mem_cons.mp hkv with h | h
          · rw [Prod.mk.injEq] at h
            obtain ⟨hk1, hv1⟩ := h
            subst hk1
            subst hv1
            exact Or.inl ((objectContainsForbiddenOwnerName_iff _).mpr hf)
          · exact Or.inr ((anyFieldForbidden_iff rest).mpr ⟨k', v', h, hns, hf⟩)
end

theorem objectContainsForbiddenOwnerName_eq_false_iff (j : Json) :
    objectContainsForbiddenOwnerName j = false ↔ ¬ JsonHasForbidden j := by
  rw [← objectContainsForbiddenOwnerName_iff j]
  cases objectContainsForbiddenOwnerName j <;> simp

/-! ## Response redactor -/

/-- JavaScript property lookup on an object field list. Keys of parsed
objects are unique, so first match equals last match. -/
def jsGetProp (fields : List (String × Json)) (k : String) : Option Json :=
  (fields.find? (fun kv => kv.1 == k)).map (fun kv => kv.2)

/-- The rows of an OData envelope: defined when the parsed body is an
object whose value property is an array, mirroring the
Array.isArray(parsed?.value) test. -/
def responseValueRows : Json → Option (List Json)
  | Json.obj fields =>
    match jsGetProp fields "value" with
    | some (Json.arr items) => some items
    | _ => none
  | _ => none

/-- The rows kept by the redactor: values.filter(row => not contains(row)). -/
def survivingRows (rows : List Json) : List Json :=
  rows.filter (fun row => !objectContainsForbiddenOwnerName row)

/-- Hexadecimal digit in lower case. -/
def hexDigit (n : Nat) : Char :=
  if n < 10 then Char.ofNat (48 + n) else Char.ofNat (87 + n)

/-- JSON string escaping as performed by JSON.stringify. -/
def escapeJsonChar (c : Char) : List Char :=
  if c = '"' then ['\\', '"']
  else if c = '\\' then ['\\', '\\']
  else if c = '\n' then ['\\', 'n']
  else if c = '\r' then ['\\', 'r']
  else if c = '\t' then ['\\', 't']
  else if c = Char.ofNat 8 then ['\\', 'b']
  else if c = Char.ofNat 12 then ['\\', 'f']
  else if c.toNat < 32 then ['\\', 'u', '0', '0', hexDigit (c.toNat / 16), hexDigit (c.toNat % 16)]
  else [c]

/-- Quoted, escaped JSON string literal. -/
def quoteJsonString (s : String) : String :=
  ⟨'"' :: s.data.foldr (fun c acc => escapeJsonChar c ++ acc) ['"']⟩

mutual
/-- Model of JSON.stringify on the JSON value tree. -/
def stringify : Json → String
  | Json.null => "null"
  | Json.bool true => "true"
  | Json.bool false => "false"
  | Json.num n => intToDecString n
  | Json.str s => quoteJsonString s
  | Json.arr items => "[" ++ stringifyItems items ++ "]"
  | Json.obj fields => "\x7b" ++ stringifyFields fields ++ "\x7d"
/-- Comma-joined serialisation of array items. -/
def stringifyItems : List Json → String
  | [] => ""
  | [j] => stringify j
  | j :: rest => stringify j ++ "," ++ stringifyItems rest
/-- Comma-joined serialisation of object fields. -/
def stringifyFields : List (String × Json) → String
  | [] => ""
  | [(k, v)] => quoteJsonString k ++ ":" ++ stringify v
  | (k, v) :: rest => quoteJsonString k ++ ":" ++ stringify v ++ "," ++ stringifyFields rest
end

/-- Spread update performed by the redactor: every binding of the value key
is replaced by the filtered array, all other bindings and the field order
are preserved. -/
def setValueField (fields : List (String × Json)) (rows : List Json) : List (String × Json) :=
  fields.map (fun kv => if kv.1 == "value" then (kv.1, Json.arr rows) else kv)

/-- Model of redactForbiddenOwnersFromODataJson. The body is carried both
as the original byte string and as the result of JSON.parse on it, with
none modelling a parse failure or a non-string body. -/
def redactForbiddenOwnersFromODataJson (responseBody : String) (parsed : Option Json) : String :=
  match parsed with
  | none => responseBody
  | some (Json.obj fields) =>
    match jsGetProp fields "value" with
    | some (Json.arr values) =>
      let filtered := survivingRows values
      if filtered.length = values.length then responseBody
      else stringify (Json.obj (setValueField fields filtered))
    | _ => responseBody
  | some _ => responseBody

/-! ## Entity catalog -/

/-- First-match association lookup, modelling JavaScript object property
access on literals with distinct keys. -/
def lookupFirstAssoc {α : Type} : List (String × α) → String → Option α
  | [], _ => none
  | e :: rest, k => if e.1 == k then some e.2 else lookupFirstAssoc rest k

/-- Last-match association lookup, modelling Object.fromEntries where a
later entry overwrites an earlier one with the same key. -/
def lookupLastAssoc {α : Type} : List (String × α) → String → Option α
  | [], _ => none
  | e :: rest, k =>
    match lookupLastAssoc rest k with
    | some v => some v
    | none => if e.1 == k then some e.2 else none

/-- The ALLOWED_METHODS constant. -/
def allowedMethods : List String := ["GET", "OPTIONS"]

/-- The ENTITY_PATH_ALIASES constant. -/
def entityPathAliases : List (String × String) :=
  [("Owners", "owners"), ("OWNERS", "owners"),
   ("CommercialOverview", "CommercialOverview"),
   ("commercialoverview", "CommercialOverview")]

/-- The ENTITY_TOP_CAPS constant. -/
def entityTopCaps : List (String × Int) :=
  [("financialmutations", 100), ("journalposttransactions", 100),
   ("salesinvoicelines", 200), ("purchaseinvoicelines", 200)]

/-- The ENTITIES_REQUIRE_FILTER constant. -/
def entitiesRequireFilter : List String :=
  ["financialmutations", "journalposttransactions"]

/-- The KNOWN_SORTABLE_FIELDS constant of the main worker. -/
def knownSortableFields : List (String × List String) :=
  [("ServiceTickets", ["ServiceTicketId", "Reference", "ReportingDate", "ClosingDate", "Priority", "RealEstateObjectName", "TenantName", "SupplierName", "ServiceTicketStateName"]),
   ("ServiceTicketStates", ["ServiceTicketStateId", "Name", "SortOrder"]),
   ("ServiceTicketProblemCategories", ["ServiceTicketProblemCategoryId", "Name", "SortOrder"]),
   ("ServiceTicketCostCategories", ["ServiceTicketCostCategoryId", "Name", "SortOrder"]),
   ("Units", ["UnitId", "DisplayName", "Reference", "CategoryName", "OccupationPercentage", "Owner", "OwnerId", "RentableFloorArea", "ComplexName"]),
   ("SalesContracts", ["SalesContractId", "Reference", "StartDate", "EndDate", "RelationName", "OwnerName", "IsEnded"]),
   ("SalesContractRealestateObjects", ["SalesContractId", "RealEstateObjectId", "SortingIndex"]),
   ("SalesContractLineItems", ["SalesContractLineItemId", "SalesContractId", "RealEstateObjectId", "RealEstateObjectName", "Amount", "StartDate", "EndDate", "LedgerAccountName"]),
   ("SalesContractLine", ["SalesContractLineId", "SalesContractId", "RealEstateObjectId", "StartDate", "EndDate", "AmountExcl", "AmountIncl", "InvoiceInterval"]),
   ("FinancingContracts", ["FinancingContractId", "Reference", "StartDate", "EndDate", "PrincipalAmount", "RealEstateObjectId"]),
   ("FinancialMutations", ["JournalPostId", "TransactionDate", "LedgerAccountCode", "Amount", "RealEstateObjectName", "RelationName", "FinancialYear", "BookingDate"]),
   ("LedgerAccounts", ["LedgerAccountId", "Code", "Name", "LedgerAccountType"]),
   ("Relations", ["RelationId", "DisplayName", "Reference", "IsActive"]),
   ("Persons", ["PersonId", "RelationId", "DisplayName", "FirstName", "LastName", "Email"]),
   ("Owners", ["OwnerId", "RelationId", "DisplayName", "Reference", "State", "Email"]),
   ("Complexes", ["ComplexId", "RealEstateObjectId", "Reference", "DisplayName", "Owner", "OccupationPercentage"]),
   ("SalesInvoices", ["SalesInvoiceId", "Reference", "InvoiceDate", "DueDate", "WorkflowState", "TotalValueIncluding", "OwnerName", "RelationName", "FinancialYear"]),
   ("SalesInvoiceLines", ["SalesInvoiceLineId", "SalesInvoiceId", "RealEstateObjectId", "Amount", "LedgerAccountName"]),
   ("OwnerSettlements", ["OwnerSettlementId", "Reference", "PeriodStart", "PeriodEnd", "OwnerName", "TotalSettlementBalance"]),
   ("Tasks", ["TaskId", "Status", "Deadline", "ShowFromDate", "TaskCategory"]),
   ("Addresses", ["AddressId", "Street", "City", "PostalCode", "Country"]),
   ("Meters", ["MeterId", "RealEstateObjectId", "CategoryName", "EANCode"]),
   ("MeterReadings", ["MeterReadingId", "MeterId", "ReadingDate", "ReadingValue"]),
   ("IndexationMethods", ["IndexationMethodId", "Name", "Type"]),
   ("IndexationSeries", ["IndexationSeriesId", "Name"]),
   ("IndexationSeriesValues", ["IndexationSeriesValueId", "IndexationSeriesId", "Year", "Percentage"]),
   ("CommercialOverview", ["RealEstateObjectId", "GroupRealEstateObjectName", "Address", "OwnerName", "TenantName", "IsOccupied", "BareRent_Yearly_TotalAmountExcl", "ContractStartDate", "ContractEndDate", "CategoryName", "RealEstateObjectType"]),
   ("PropertyValuationValues", ["PropertyValuationValueId", "RealEstateObjectId", "ValuationYear", "Value", "ValuationTypeName"]),
   ("PropertyValuationTypes", ["PropertyValuationTypeId", "Name"]),
   ("Notes", ["NoteId", "CreatedOnTimeStamp", "LastEditedOnTimeStamp", "EntityLinkType", "EntityId"]),
   ("OpenPositionDebtors", ["SalesInvoiceId", "InvoiceDate", "DueDate", "Age", "OutstandingAmount", "RelationName", "OwnerName"]),
   ("OpenPositionCreditors", ["PurchaseInvoiceId", "InvoiceDate", "DueDate", "Age", "OutstandingAmount", "RelationName"]),
   ("TheoreticalRentItems", ["TheoreticalRentItemId", "RealEstateObjectId", "RealEstateObjectName", "Amount", "StartDate", "EndDate"]),
   ("PurchaseOrders", ["PurchaseOrderId", "Reference", "OrderDate", "RelationName", "TotalAmount", "WorkflowState"]),
   ("PurchaseOrderLines", ["PurchaseOrderLineId", "PurchaseOrderId", "RealEstateObjectId", "Amount"]),
   ("Installations", ["InstallationId", "RealEstateObjectId", "Name", "InstallationTypeName", "NextMaintenanceOn"]),
   ("InstallationTypes", ["InstallationTypeId", "Name"]),
   ("Projects", ["ProjectId", "Reference", "Name", "StartDate", "EndDate", "Status"]),
   ("Buildings", ["BuildingId", "RealEstateObjectId", "Reference", "DisplayName", "DisplayAddress", "OwnerId", "Owner", "CategoryName"]),
   ("Sections", ["SectionId", "ComplexId", "Reference", "DisplayName"]),
   ("PurchaseInvoices", ["PurchaseInvoiceId", "Reference", "InvoiceDate", "DueDate", "WorkflowState", "TotalValueIncluding", "RelationName", "RealEstateObjectName", "FinancialYear"]),
   ("PurchaseInvoiceLines", ["PurchaseInvoiceLineId", "PurchaseInvoiceId", "RealEstateObjectId", "RealEstateObjectName", "Amount", "LedgerAccountName"]),
   ("PurchaseContracts", ["PurchaseContractId", "Reference", "RelationName", "StartDate", "EndDate"]),
   ("PurchaseContractLines", ["PurchaseContractLineId", "PurchaseContractId", "RealEstateObjectId", "Amount"]),
   ("RealEstateObjects", ["RealEstateObjectId", "Reference", "DisplayName", "DisplayAddress", "CategoryName"]),
   ("Journals", ["JournalId", "Code", "Name", "JournalType"]),
   ("JournalPostTransactions", ["JournalPostId", "TransactionDate", "BookingDate", "JournalId", "Amount"]),
   ("BankAccounts", ["BankAccountId", "IBAN", "Name", "OwnerId"]),
   ("OwnerBankAccounts", ["OwnerBankAccountId", "OwnerId", "IBAN", "BankAccountName"]),
   ("Budgets", ["BudgetId", "Name", "Year", "Amount"]),
   ("TaxRates", ["TaxRateId", "Code", "Name", "Percentage"]),
   ("TeamMembers", ["TeamMemberId", "RealEstateObjectId", "PersonId", "Role"]),
   ("WorkRegistrations", ["WorkRegistrationId", "Date", "Hours", "PersonId"]),
   ("ControlList", ["ControlListId", "Reference", "Status", "DueDate"]),
   ("RelationContactPersons", ["RelationContactPersonId", "RelationId", "PersonId"]),
   ("RelationCommunicationForms", ["RelationCommunicationFormId", "RelationId", "Type", "Value"]),
   ("SupplierTypes", ["SupplierTypeId", "Name"]),
   ("default", ["Id", "Reference", "DisplayName", "Name"])]

/-- The KNOWN_SORTABLE_FIELDS_LOWER constant: the same table keyed by the
lower-cased entity names. -/
def knownSortableFieldsLower : List (String × List String) :=
  knownSortableFields.map (fun e => (jsToLower e.1, e.2))

/-- Model of getKnownSortableFields. The lookup key is the lower-cased
entity name, with none modelling a null entity. A missing entry falls back
to the default entry of the table. -/
def getKnownSortableFields (entityName : Option String) : List String :=
  let key := jsToLower (entityName.getD "")
  match lookupLastAssoc knownSortableFieldsLower key with
  | some fields => fields
  | none =>
    match lookupFirstAssoc knownSortableFields "default" with
    | some fields => fields
    | none => []

/-- Model of getTopCap. The caps table holds no zero value, so JavaScript
falsiness of a hit coincides with a missing entry. -/
def getTopCap (entityName : Option String) : Int :=
  let key := jsToLower (entityName.getD "")
  (lookupFirstAssoc entityTopCaps key).getD 500

/-- Model of requiresFilter. -/
def requiresFilter (entityName : Option String) : Bool :=
  entitiesRequireFilter.contains (jsToLower (entityName.getD ""))

/-! ## Query-string model: URLSearchParams as an ordered key-value list -/

/-- Model of URLSearchParams.get: the value of the first pair with the
given name. -/
def paramsGet : List (String × String) → String → Option String
  | [], _ => none
  | p :: rest, k => if p.1 == k then some p.2 else paramsGet rest k

/-- Model of URLSearchParams.delete: remove every pair with the name. -/
def paramsDelete (ps : List (String × String)) (k : String) : List (String × String) :=
  ps.filter (fun p => !(p.1 == k))

/-- Replace the value of the first pair with the name and drop the other
pairs with that name; used when the name is known to be present. -/
def paramsSetFirst (k v : String) : List (String × String) → List (String × String)
  | [] => []
  | p :: rest =>
    if p.1 == k then (p.1, v) :: rest.filter (fun q => !(q.1 == k))
    else p :: paramsSetFirst k v rest

/-- Model of URLSearchParams.set: overwrite the first occurrence in place
and delete the others, or append when the name is absent. -/
def paramsSet (ps : List (String × String)) (k v : String) : List (String × String) :=
  if ps.any (fun p => p.1 == k) then paramsSetFirst k v ps else ps ++ [(k, v)]

/-! ## Query sanitiser -/

/-- Top-cap enforcement step of validateAndFixQuery: if the top parameter
parses to a positive integer it is capped at getTopCap, otherwise it is
deleted. -/
def topCapStep (params : List (String × String)) (entityName : String) :
    List (String × String) :=
  match paramsGet params "$top" with
  | none => params
  | some top =>
    match parseIntJS top with
    | none => paramsDelete params "$top"
    | some parsedTop =>
      if parsedTop ≤ 0 then paramsDelete params "$top"
      else if parsedTop > getTopCap (some entityName) then
        paramsSet params "$top" (intToDecString (getTopCap (some entityName)))
      else params

/-- Model of buildCanonicalFieldMap followed by Map.get on the lower-cased
field name: a later field with the same lower-casing overwrites an earlier
one, and empty fields are skipped. -/
def canonicalFieldFor (fields : List String) (keyLower : String) : Option String :=
  fields.foldl
    (fun acc field =>
      if 0 < field.length ∧ jsToLower field == keyLower then some field else acc)
    none

/-- Split a character list at every occurrence of the separator, modelling
String.prototype.split with a plain separator. -/
def splitCharList (sep : Char) (cs : List Char) : List (List Char) :=
  cs.foldr
    (fun ch acc =>
      match acc with
      | [] => [[ch]]
      | cur :: rest => if ch = sep then [] :: cur :: rest else (ch :: cur) :: rest)
    [[]]

/-- Comma split of a string. -/
def strSplitOnComma (s : String) : List String :=
  (splitCharList ',' s.data).map (fun cs => ⟨cs⟩)

/-- First whitespace-delimited token of a segment and the following token,
modelling segment.split on a whitespace run with limit two; the second
component is empty when the segment holds a single token. -/
def wsFirstTwoTokens (cs : List Char) : List Char × List Char :=
  let t1 := cs.takeWhile (fun c => !isJsSpace c)
  let rest := (cs.dropWhile (fun c => !isJsSpace c)).dropWhile isJsSpace
  (t1, rest.takeWhile (fun c => !isJsSpace c))

/-- Normalisation of one orderby segment: the first whitespace token is the
field name and is resolved case-insensitively in the canonical field map;
on a hit the canonical spelling is emitted, with the desc suffix exactly
when the direction token lower-cases to desc; on a miss the segment is
dropped. -/
def normalizeOrderBySegment (knownFields : List String) (segment : String) : Option String :=
  match canonicalFieldFor knownFields (jsToLower (jsTrim ⟨(wsFirstTwoTokens segment.data).1⟩)) with
  | some canonical =>
    some (if jsToLower ⟨(wsFirstTwoTokens segment.data).2⟩ == "desc" then canonical ++ " desc"
      else canonical)
  | none => none

/-- Normalised multi-field orderby segments: the comma split is trimmed,
empty segments are dropped and the remaining segments are normalised. -/
def normalizeOrderBySegments (knownFields : List String) (orderBy : String) : List String :=
  (((strSplitOnComma orderBy).map jsTrim).filter (fun s => !(s == ""))).filterMap
    (normalizeOrderBySegment knownFields)

/-- Selection of a safe default ordering field from a field list: the
first field ending in Id or equal to Reference, else the first field, else
none on an empty list. -/
def findSafeOrderByFieldIn : List String → Option String
  | [] => none
  | first :: rest =>
    match (first :: rest).find? (fun f => strEndsWith f "Id" || f == "Reference") with
    | some preferred => some preferred
    | none => some first

/-- Model of findSafeOrderByField: the safe default among the known
sortable fields of the entity. -/
def findSafeOrderByField (entityName : Option String) : Option String :=
  findSafeOrderByFieldIn (getKnownSortableFields entityName)

/-- Join with a comma and a space, as in normalizedSegments.join. -/
def joinCommaSpace : List String → String
  | [] => ""
  | [s] => s
  | s :: rest => s ++ ", " ++ joinCommaSpace rest

/-- Orderby validation step of validateAndFixQuery, applied when the
original query carried an orderby value. -/
def orderByStep (params : List (String × String)) (entityName : String)
    (orderBy : String) : List (String × String) :=
  match normalizeOrderBySegments (getKnownSortableFields (some entityName)) orderBy with
  | [] =>
    match findSafeOrderByField (some entityName) with
    | some safeField =>
      paramsSet params "$orderby"
        (safeField ++ (if strIncludes (jsToLower orderBy) "desc" then " desc" else ""))
    | none => paramsDelete params "$orderby"
  | s0 :: srest =>
    if joinCommaSpace (s0 :: srest) == orderBy then params
    else paramsSet params "$orderby" (joinCommaSpace (s0 :: srest))

/-- Model of validateAndFixQuery. A none entity or an empty search is
returned unchanged; otherwise the top cap step runs first and then the
orderby step, with the orderby value read from the original parameters as
in the source. The orderby block is guarded by the truthiness test
if (orderBy), which is false both for an absent parameter and for an
empty string value, so an empty orderby value skips the block and is
forwarded unchanged. -/
def validateAndFixQuery (search : List (String × String)) (entityName : Option String) :
    List (String × String) :=
  match entityName with
  | none => search
  | some ename =>
    if search.isEmpty then search
    else
      match paramsGet search "$orderby" with
      | none => topCapStep search ename
      | some ob =>
        if ob = "" then topCapStep search ename
        else orderByStep (topCapStep search ename) ename ob

/-! ## Pathname handling -/

/-- Model of normalizeODataPathname: rewrite the first segment after the
odatafeed marker through the alias table, leaving dollar endpoints and
unknown segments untouched. -/
def normalizeODataPathname (pathname : String) : String :=
  if !(strStartsWith pathname "/odatafeed/") then pathname
  else if strStartsWith (⟨(pathname.data.drop 11).takeWhile (fun c => c ≠ '/')⟩ : String) "$" then
    pathname
  else
    match lookupFirstAssoc entityPathAliases
        (⟨(pathname.data.drop 11).takeWhile (fun c => c ≠ '/')⟩ : String) with
    | none => pathname
    | some replacement =>
      "/odatafeed/" ++ replacement ++ (⟨(pathname.data.drop 11).dropWhile (fun c => c ≠ '/')⟩ : String)

/-- Character allowed inside an extracted entity segment by the extraction
regexp: anything except a slash or a question mark. -/
def isSegChar (c : Char) : Bool := !(c = '/' || c = '?')

/-- Scan for the first position where the odatafeed marker is followed by a
nonempty run of segment characters, as the unanchored extraction regexp
does, and return that run. -/
def extractEntityAux : List Char → Option String
  | [] => none
  | c :: cs =>
    if ("/odatafeed/".data).isPrefixOf (c :: cs) then
      let seg := ((c :: cs).drop 11).takeWhile isSegChar
      if seg.isEmpty then extractEntityAux cs else some ⟨seg⟩
    else extractEntityAux cs

/-- Model of the entity extraction match on the normalised pathname. -/
def extractEntityName (pathname : String) : Option String :=
  extractEntityAux pathname.data

/-! ## Request router of the main worker -/

/-- Body of a jsonError response. -/
def jsonErrorBody (message : String) : String :=
  "\x7b\"error\":\"" ++ message ++ "\"\x7d"

/-- The 400 message sent when a required filter is missing; a none entity
renders as the word null under JavaScript template interpolation. -/
def missingFilterMessage (entityName : Option String) : String :=
  "Missing required $filter for " ++ entityName.getD "null" ++
    ". Add a restrictive $filter (and keep $top <= " ++
    intToDecString (getTopCap entityName) ++ ")."

/-- Outcome of one routed request of the main worker. A response outcome
carries the HTTP status and body and involves no upstream data request; the
upstream outcome carries the forwarded pathname, the sanitised search and
the bearer token attached to the outgoing request. -/
inductive ProxyOutcome where
  | response (status : Nat) (body : String)
  | metadataSummary
  | learnSummary
  | upstreamGet (pathname : String) (search : List (String × String)) (jwt : String)

/-- Model of the fetch handler of the main worker, followed until the
point where the upstream data request is issued. The first component
records whether control reached the token-manager step, which is the only
step that may issue the upstream auth request; tokenResult abstracts its
outcome. The search string is modelled as parsed parameters. -/
def handleProxyFetch (method pathname : String) (authHeader : Option String)
    (search : List (String × String)) (proxyApiKey : String)
    (tokenResult : Except String String) : Bool × ProxyOutcome :=
  if method == "OPTIONS" then (false, ProxyOutcome.response 204 "")
  else if !(allowedMethods.contains method) then
    (false, ProxyOutcome.response 405 (jsonErrorBody "Method not allowed"))
  else
    match authHeader with
    | none =>
      (false, ProxyOutcome.response 401 (jsonErrorBody "Missing or invalid Authorization header"))
    | some authH =>
      if !(strStartsWith authH "Bearer ") then
        (false, ProxyOutcome.response 401 (jsonErrorBody "Missing or invalid Authorization header"))
      else
        let providedKey : String := ⟨authH.data.drop 7⟩
        if !(providedKey == proxyApiKey) then
          (false, ProxyOutcome.response 401 (jsonErrorBody "Invalid API key"))
        else if pathname == "/odatafeed/$metadata-summary" then
          (false, ProxyOutcome.metadataSummary)
        else if pathname == "/odatafeed/$learn-summary" then
          (false, ProxyOutcome.learnSummary)
        else
          let normalizedPathname := normalizeODataPathname pathname
          match tokenResult with
          | Except.error e =>
            (true, ProxyOutcome.response 500 (jsonErrorBody ("Failed to get Bloxs token: " ++ e)))
          | Except.ok token =>
            let entityName := extractEntityName normalizedPathname
            let fixedSearch := validateAndFixQuery search entityName
            if requiresFilter entityName && (paramsGet fixedSearch "$filter").isNone then
              (true, ProxyOutcome.response 400 (jsonErrorBody (missingFilterMessage entityName)))
            else (true, ProxyOutcome.upstreamGet normalizedPathname fixedSearch token)

/-! ## Early routing of the legacy cloudflare-proxy worker -/

/-- Stages reachable before any upstream contact in the legacy worker held
at cloudflare-proxy/src/index.js. -/
inductive LegacyEarly where
  | corsPreflight
  | metadataSummary
  | unauthorized (message : String)
  | acquireToken

/-- Model of the top of the legacy fetch handler: CORS preflight, then the
metadata-summary endpoint, then the two credential checks, after which
control proceeds to token acquisition and the upstream forward. -/
def legacyRouteEarly (method pathname : String) (authHeader : Option String)
    (proxyApiKey : String) : LegacyEarly :=
  if method == "OPTIONS" then LegacyEarly.corsPreflight
  else if pathname == "/odatafeed/$metadata-summary" then LegacyEarly.metadataSummary
  else
    match authHeader with
    | none => LegacyEarly.unauthorized "Missing or invalid Authorization header"
    | some authH =>
      if !(strStartsWith authH "Bearer ") then
        LegacyEarly.unauthorized "Missing or invalid Authorization header"
      else
        let providedKey : String := ⟨authH.data.drop 7⟩
        if !(providedKey == proxyApiKey) then
          LegacyEarly.unauthorized "Invalid API key"
        else LegacyEarly.acquireToken

/-! ## Token manager: expiry computation -/

/-- Days between the civil date and the Unix epoch in the proleptic
Gregorian calendar; the formula is linear in the day, so a day beyond the
month length rolls over exactly as the JavaScript MakeDay operation does. -/
def daysFromCivil (y m d : Int) : Int :=
  let yAdj := if m ≤ 2 then y - 1 else y
  let era := Int.fdiv yAdj 400
  let yoe := yAdj - era * 400
  let mp := Int.emod (m + 9) 12
  let doy := Int.fdiv (153 * mp + 2) 5 + d - 1
  let doe := yoe * 365 + Int.fdiv yoe 4 - Int.fdiv yoe 100 + doy
  era * 146097 + doe - 719468

/-- Model of Date.UTC on the argument ranges produced by toUtcMs: the month
index lies in the range zero to eleven, a two-digit year maps into the
twentieth century, and an out-of-range day rolls into the following
months. -/
def jsDateUTC (year monthIndex day hour minute second : Int) : Int :=
  let fullYear := if 0 ≤ year ∧ year ≤ 99 then year + 1900 else year
  daysFromCivil fullYear (monthIndex + 1) day * 86400000 +
    hour * 3600000 + minute * 60000 + second * 1000

/-- Model of toUtcMs: guard the month to one through twelve and the day to
one through thirty-one, then defer to Date.UTC. -/
def toUtcMs (year month day hour minute second : Int) : Option Int :=
  if month < 1 ∨ month > 12 ∨ day < 1 ∨ day > 31 then none
  else some (jsDateUTC year (month - 1) day hour minute second)

/-- JavaScript truthiness filter on a millisecond value: zero is falsy. -/
def jsTruthyMs : Option Int → Option Int
  | none => none
  | some v => if v = 0 then none else some v

/-- Take the longest run of decimal digits and return it with the rest. -/
def takeDigitRun (cs : List Char) : List Char × List Char :=
  (cs.takeWhile Char.isDigit, cs.dropWhile Char.isDigit)

/-- Deterministic equivalent of the expiration regexp: one or two digits, a
slash, one or two digits, a slash, exactly four digits, then optionally a
whitespace run, one or two digits, a colon, exactly two digits, and
optionally a colon with exactly two digits, with nothing after. Returns the
two leading numbers, the year, and the time fields. -/
def matchExpirationFormat (cs : List Char) : Option (Int × Int × Int × Int × Int × Int) :=
  let r0 := takeDigitRun cs
  if r0.1.length < 1 ∨ r0.1.length > 2 then none
  else
    match r0.2 with
    | '/' :: r1 =>
      let r2 := takeDigitRun r1
      if r2.1.length < 1 ∨ r2.1.length > 2 then none
      else
        match r2.2 with
        | '/' :: r3 =>
          let r4 := takeDigitRun r3
          if r4.1.length ≠ 4 then none
          else
            match r4.2 with
            | [] => some ((digitsVal r0.1 : Int), (digitsVal r2.1 : Int), (digitsVal r4.1 : Int), 0, 0, 0)
            | c :: _ =>
              if !isJsSpace c then none
              else
                let r5 := r4.2.dropWhile isJsSpace
                let r6 := takeDigitRun r5
                if r6.1.length < 1 ∨ r6.1.length > 2 then none
                else
                  match r6.2 with
                  | ':' :: r7 =>
                    let r8 := takeDigitRun r7
                    if r8.1.length ≠ 2 then none
                    else
                      match r8.2 with
                      | [] =>
                        some ((digitsVal r0.1 : Int), (digitsVal r2.1 : Int), (digitsVal r4.1 : Int),
                          (digitsVal r6.1 : Int), (digitsVal r8.1 : Int), 0)
                      | ':' :: r9 =>
                        let r10 := takeDigitRun r9
                        if r10.1.length ≠ 2 then none
                        else
                          match r10.2 with
                          | [] =>
                            some ((digitsVal r0.1 : Int), (digitsVal r2.1 : Int), (digitsVal r4.1 : Int),
                              (digitsVal r6.1 : Int), (digitsVal r8.1 : Int), (digitsVal r10.1 : Int))
                          | _ => none
                      | _ => none
                  | _ => none
        | _ => none
    | _ => none

/-- Model of parseBloxsExpirationMs: match the trimmed string against the
expiration format, try the day-first reading, and on a falsy result try the
month-first reading; a falsy result of both yields none. -/
def parseBloxsExpirationMs (expiration : String) : Option Int :=
  if expiration == "" then none
  else
    match matchExpirationFormat (trimChars expiration.data) with
    | none => none
    | some (a, b, year, hour, minute, second) =>
      match jsTruthyMs (toUtcMs year b a hour minute second) with
      | some v => some v
      | none => jsTruthyMs (toUtcMs year a b hour minute second)

/-- Expiry selection of getBloxsToken after a successful auth exchange:
prefer a truthy JWT exp milliseconds value, else the parsed expiration
string, else now plus fifty-five minutes. The first argument abstracts
getJwtExpiryMs on the returned token, and zero is falsy as in the source. -/
def computeTokenExpiry (jwtExpiryMs : Option Int) (expiration : Option String)
    (now : Int) : Int :=
  let parsedExpiry : Option Int :=
    match expiration with
    | some e => parseBloxsExpirationMs e
    | none => none
  let fromExpiration : Int :=
    match parsedExpiry with
    | some v => if v = 0 then now + 55 * 60 * 1000 else v
    | none => now + 55 * 60 * 1000
  match jwtExpiryMs with
  | some v => if v = 0 then fromExpiration else v
  | none => fromExpiration

/-! ## Token manager: cache step -/

/-- The module-level token cache of the worker. -/
structure TokenCacheState where
  cachedToken : Option String
  tokenExpiry : Int
deriving DecidableEq, Repr

/-- JavaScript truthiness of the cached token: present and nonempty. -/
def tokenIsTruthy : Option String → Bool
  | some t => !(t == "")
  | none => false

/-- One call of getBloxsToken on the successful path, returning the token
handed to the caller, the cache afterwards, and whether an upstream auth
request was issued. The refresh result is abstracted by the fresh token,
the abstracted getJwtExpiryMs value, and the expiration string of the auth
response. -/
def getBloxsTokenStep (st : TokenCacheState) (now : Int) (freshToken : String)
    (freshJwtExpiryMs : Option Int) (freshExpiration : Option String) :
    String × TokenCacheState × Bool :=
  if tokenIsTruthy st.cachedToken && decide (st.tokenExpiry > now + 300000) then
    (st.cachedToken.getD "", st, false)
  else
    let newExpiry := computeTokenExpiry freshJwtExpiryMs freshExpiration now
    (freshToken, ⟨some freshToken, newExpiry⟩, true)

/-! ## Schema learner -/

/-- Top-level property names of one row contributed to the learner: keys of
a plain object, excluding the empty key and keys starting with the at-odata
marker. -/
def rowTopLevelKeys : Json → List String
  | Json.obj fields =>
    (fields.map (fun kv => kv.1)).filter
      (fun k => !(k == "") && !(strStartsWith k "@odata."))
  | _ => []

/-- Insertion-ordered set union, modelling repeated Set.prototype.add. -/
def dedupAppend (acc : List String) (ks : List String) : List String :=
  ks.foldl (fun a k => if a.contains k then a else a ++ [k]) acc

/-- Field names discovered from the first rows of a response, sampling at
most five rows as the source does. -/
def discoveredFields (values : List Json) : List String :=
  let sampleCount := min values.length 5
  (values.take sampleCount).foldl (fun acc row => dedupAppend acc (rowTopLevelKeys row)) []

/-- The learned record written to the KV store. The lastSeen ISO timestamp
is modelled by its underlying instant. -/
structure LearnedEntityRecord where
  entity : String
  entityKey : String
  fields : List String
  fieldCount : Nat
  sampleCount : Nat
  lastSeenMs : Int
  lastWriteMs : Int
deriving DecidableEq, Repr

/-- Lexicographic comparison of character lists by code point, modelling
the default Array.prototype.sort comparison on the ASCII field names. -/
def charListLe : List Char → List Char → Bool
  | [], _ => true
  | _ :: _, [] => false
  | a :: as, b :: bs => if a = b then charListLe as bs else decide (a < b)

/-- Insert a string into a sorted list. -/
def insertSorted (s : String) : List String → List String
  | [] => [s]
  | t :: rest => if charListLe s.data t.data then s :: t :: rest else t :: insertSorted s rest

/-- Insertion sort of strings, modelling Array.from(set).sort(). -/
def sortStrings (l : List String) : List String := l.foldr insertSorted []

/-- The field set of the existing KV record, modelling new Set on the
stored fields array, or the empty set when no record exists. -/
def existingFieldSet : Option LearnedEntityRecord → List String
  | some r => dedupAppend [] r.fields
  | none => []

/-- The last-write instant of the existing KV record, with zero when the
record or the field is absent, modelling Number(existing?.lastWriteMs ?? 0). -/
def existingLastWriteMs : Option LearnedEntityRecord → Int
  | some r => r.lastWriteMs
  | none => 0

/-- Model of maybeLearnFromOData as a decision function: given the entity
name, the parsed response body, the existing KV record, the clock, and the
two enablement flags, it returns the record written to the KV store, or
none when no write happens. Reading and writing the KV store and the index
maintenance are the ambient effects around this decision. The hasNewFields
flag of the source is the negation of the all-contained test below, and
the let bindings of the source are inlined. -/
def maybeLearnFromOData (entityName : Option String) (parsedBody : Option Json)
    (existing : Option LearnedEntityRecord) (now : Int)
    (learningEnabled kvBound : Bool) : Option LearnedEntityRecord :=
  if !learningEnabled then none
  else if !kvBound then none
  else
    match entityName, parsedBody with
    | some ename, some body =>
      match responseValueRows body with
      | none => none
      | some values =>
        if values.isEmpty then none
        else if (discoveredFields values).isEmpty then none
        else if (discoveredFields values).all
              (fun f => (existingFieldSet existing).contains f) &&
            !(decide (now - existingLastWriteMs existing > 24 * 60 * 60 * 1000)) then none
        else
          some
            { entity := ename
              entityKey := jsToLower ename
              fields := sortStrings
                (dedupAppend (existingFieldSet existing) (discoveredFields values))
              fieldCount :=
                (dedupAppend (existingFieldSet existing) (discoveredFields values)).length
              sampleCount := min values.length 5
              lastSeenMs := now
              lastWriteMs := now }
    | _, _ => none

/-! ## Helper lemmas -/

theorem mem_of_survivingRows {rows : List Json} {row : Json}
    (h : row ∈ survivingRows rows) :
    row ∈ rows ∧ objectContainsForbiddenOwnerName row = false := by
  have h' := List.mem_filter.mp h
  refine ⟨h'.1, ?_⟩
  have := h'.2
  cases hb : objectContainsForbiddenOwnerName row
  · rfl
  · rw [hb] at this
    simp at this

theorem survivingRows_eq_self {rows : List Json}
    (h : ∀ r ∈ rows, ¬ JsonHasForbidden r) : survivingRows rows = rows := by
  apply List.filter_eq_self.mpr
  intro r hr
  have hb : objectContainsForbiddenOwnerName r = false :=
    (objectContainsForbiddenOwnerName_eq_false_iff r).mpr (h r hr)
  simp [hb]

theorem survivingRows_length_ne {rows : List Json} {r : Json}
    (hr : r ∈ rows) (hf : JsonHasForbidden r) :
    ¬ (survivingRows rows).length = rows.length := by
  intro hlen
  have hsub : (survivingRows rows).Sublist rows := List.filter_sublist rows
  have heq : survivingRows rows = rows := hsub.eq_of_length hlen
  have hmem : r ∈ survivingRows rows := by rw [heq]; exact hr
  have := (mem_of_survivingRows hmem).2
  rw [(objectContainsForbiddenOwnerName_eq_false_iff r)] at this
  exact this hf

/-! ## Claim theorems: redaction -/

/-- C1: every row kept by the redaction filter has no string in its
transitive value graph, outside values of at-odata keys, whose trimmed and
lower-cased form is a forbidden owner name; and every row having such a
string is dropped from the value array. -/
theorem C1_redaction_soundness (rows : List Json) (row : Json) :
    (row ∈ survivingRows rows → ¬ JsonHasForbidden row) ∧
    (JsonHasForbidden row → row ∉ survivingRows rows) := by
  constructor
  · intro h
    exact (objectContainsForbiddenOwnerName_eq_false_iff row).mp (mem_of_survivingRows h).2
  · intro hf h
    have := (mem_of_survivingRows h).2
    rw [objectContainsForbiddenOwnerName_eq_false_iff row] at this
    exact this hf

/-- C1 witness: a concrete clean row survives and is proved free of
forbidden strings by the claim theorem. -/
theorem C1_redaction_soundness_witness :
    ¬ JsonHasForbidden (Json.obj [("OwnerName", Json.str "Acme")]) := by
  have hrow : objectContainsForbiddenOwnerName (Json.obj [("OwnerName", Json.str "Acme")]) = false := by
    simp only [objectContainsForbiddenOwnerName, anyFieldForbidden]
    decide
  refine (C1_redaction_soundness [Json.obj [("OwnerName", Json.str "Acme")]]
    (Json.obj [("OwnerName", Json.str "Acme")])).1 ?_
  simp [survivingRows, List.filter_cons, hrow]

/-- C7: the redactor is the identity on the original bytes when the body
does not parse, when the parsed value is not an object with an array under
the value key, or when every row is free of forbidden strings; only when
some row is dropped does it re-serialise the spread-updated object. -/
theorem C7_redaction_stability (raw : String) :
    (redactForbiddenOwnersFromODataJson raw none = raw) ∧
    (∀ p : Json, responseValueRows p = none →
      redactForbiddenOwnersFromODataJson raw (some p) = raw) ∧
    (∀ (p : Json) (rows : List Json), responseValueRows p = some rows →
      (∀ r ∈ rows, ¬ JsonHasForbidden r) →
      redactForbiddenOwnersFromODataJson raw (some p) = raw) ∧
    (∀ (fields : List (String × Json)) (rows : List Json) (r : Json),
      responseValueRows (Json.obj fields) = some rows → r ∈ rows → JsonHasForbidden r →
      redactForbiddenOwnersFromODataJson raw (some (Json.obj fields)) =
        stringify (Json.obj (setValueField fields (survivingRows rows)))) := by
  refine ⟨rfl, ?_, ?_, ?_⟩
  · intro p h
    cases p with
    | obj fields =>
      rw [redactForbiddenOwnersFromODataJson]
      rw [responseValueRows] at h
      cases hv : jsGetProp fields "value" with
      | none => rfl
      | some j =>
        rw [hv] at h
        cases j with
        | arr items => exact Option.noConfusion h
        | null => rfl
        | bool b => rfl
        | num n => rfl
        | str s => rfl
        | obj o => rfl
    | null => rfl
    | bool b => rfl
    | num n => rfl
    | str s => rfl
    | arr items => rfl
  · intro p rows h hall
    cases p with
    | obj fields =>
      rw [redactForbiddenOwnersFromODataJson]
      rw [responseValueRows] at h
      cases hv : jsGetProp fields "value" with
      | none => rw [hv] at h
      | some j =>
        rw [hv] at h
        cases j with
        | arr items =>
          have h' : items = rows := by
            have h2 : some items = some rows := h
            exact Option.some.inj h2
          subst h'
          show (if (survivingRows items).length = items.length then raw
            else stringify (Json.obj (setValueField fields (survivingRows items)))) = raw
          rw [survivingRows_eq_self hall]
          simp
        | null => exact Option.noConfusion h
        | bool b => exact Option.noConfusion h
        | num n => exact Option.noConfusion h
        | str s => exact Option.noConfusion h
        | obj o => exact Option.noConfusion h
    | null => exact Option.noConfusion h
    | bool b => exact Option.noConfusion h
    | num n => exact Option.noConfusion h
    | str s => exact Option.noConfusion h
    | arr items => exact Option.noConfusion h
  · intro fields rows r h hr hf
    rw [redactForbiddenOwnersFromODataJson]
    rw [responseValueRows] at h
    cases hv : jsGetProp fields "value" with
    | none => rw [hv] at h; exact Option.noConfusion h
    | some j =>
      rw [hv] at h
      cases j with
      | arr items =>
        have h' : items = rows := by
          have h2 : some items = some rows := h
          exact Option.some.inj h2
        subst h'
        show (if (survivingRows items).length = items.length then raw
          else stringify (Json.obj (setValueField fields (survivingRows items)))) =
          stringify (Json.obj (setValueField fields (survivingRows items)))
        rw [if_neg (survivingRows_length_ne hr hf)]
      | null => exact Option.noConfusion h
      | bool b => exact Option.noConfusion h
      | num n => exact Option.noConfusion h
      | str s => exact Option.noConfusion h
      | obj o => exact Option.noConfusion h

/-- C7 witness: a body whose single row is clean is returned byte for
byte, by the stability theorem applied at a concrete input. -/
theorem C7_redaction_stability_witness :
    redactForbiddenOwnersFromODataJson "\x7b\"value\":[\x7b\"OwnerName\":\"Acme\"\x7d]\x7d"
      (some (Json.obj [("value", Json.arr [Json.obj [("OwnerName", Json.str "Acme")]])])) =
      "\x7b\"value\":[\x7b\"OwnerName\":\"Acme\"\x7d]\x7d" := by
  refine (C7_redaction_stability _).2.2.1
    (Json.obj [("value", Json.arr [Json.obj [("OwnerName", Json.str "Acme")]])])
    [Json.obj [("OwnerName", Json.str "Acme")]] rfl ?_
  intro r hr
  have hr' : r = Json.obj [("OwnerName", Json.str "Acme")] := by simpa using hr
  subst hr'
  intro hcontra
  have hb : objectContainsForbiddenOwnerName (Json.obj [("OwnerName", Json.str "Acme")]) = false := by
    simp only [objectContainsForbiddenOwnerName, anyFieldForbidden]
    decide
  exact absurd ((objectContainsForbiddenOwnerName_iff _).mpr hcontra) (by simp [hb])

/-! ## Claim theorem: auth ordering of the two checked-in workers -/

/-- C2: in the legacy worker at cloudflare-proxy/src/index.js the
metadata-summary handler runs before the credential checks, so a request
for that path with no Authorization header is served with the 200 summary
instead of the 401 the claim requires; the main worker checks credentials
first and replies 401 on the same input without reaching the token step,
hence with zero upstream requests. -/
theorem C2_legacy_metadata_bypasses_auth :
    legacyRouteEarly "GET" "/odatafeed/$metadata-summary" none "proxy-key" =
      LegacyEarly.metadataSummary ∧
    handleProxyFetch "GET" "/odatafeed/$metadata-summary" none [] "proxy-key"
      (Except.ok "jwt") =
      (false, ProxyOutcome.response 401 (jsonErrorBody "Missing or invalid Authorization header")) :=
  ⟨rfl, rfl⟩

/-! ## URLSearchParams lemmas -/

theorem isPrefixOf_self_append (l t : List Char) : l.isPrefixOf (l ++ t) = true := by
  induction l with
  | nil => cases t <;> rfl
  | cons c cs ih =>
    rw [List.cons_append, List.isPrefixOf]
    simp [ih]

theorem containsSubList_self_append (pat suf : List Char) :
    containsSubList pat (pat ++ suf) = true := by
  cases pat with
  | nil =>
    cases suf with
    | nil => rfl
    | cons c cs =>
      rw [List.nil_append, containsSubList]
      simp [List.isPrefixOf]
  | cons c cs =>
    rw [List.cons_append, containsSubList]
    have := isPrefixOf_self_append (c :: cs) suf
    rw [List.cons_append] at this
    simp [this]

theorem containsSubList_cons_of {pat l : List Char} (c : Char)
    (h : containsSubList pat l = true) : containsSubList pat (c :: l) = true := by
  rw [containsSubList]
  simp [h]

theorem containsSubList_append_left {pat l : List Char} (pre : List Char)
    (h : containsSubList pat l = true) : containsSubList pat (pre ++ l) = true := by
  induction pre with
  | nil => exact h
  | cons c cs ih =>
    rw [List.cons_append]
    exact containsSubList_cons_of c ih

theorem strIncludes_piece (pre pat suf : String) :
    strIncludes (pre ++ (pat ++ suf)) pat = true := by
  rw [strIncludes, String.data_append, String.data_append]
  exact containsSubList_append_left pre.data (containsSubList_self_append pat.data suf.data)

/-! ## Pathname normalisation and extraction lemmas -/

theorem extractEntityAux_marker (c : Char) (cs : List Char) (hc : isSegChar c = true) :
    extractEntityAux ("/odatafeed/".data ++ c :: cs) =
      some ⟨(c :: cs).takeWhile isSegChar⟩ := by
  have hdata : "/odatafeed/".data =
      ['/', 'o', 'd', 'a', 't', 'a', 'f', 'e', 'e', 'd', '/'] := rfl
  rw [hdata]
  rw [List.cons_append, extractEntityAux]
  rw [if_pos (by
    rw [hdata]
    rw [← List.cons_append]
    exact isPrefixOf_self_append _ _)]
  have hdrop : (('/' :: (['o', 'd', 'a', 't', 'a', 'f', 'e', 'e', 'd', '/'] ++ c :: cs)).drop 11) =
      c :: cs := rfl
  rw [hdrop]
  rw [List.takeWhile_cons, hc]
  simp

theorem normalizeODataPathname_eq_of_extract_none {pathname : String}
    (h : extractEntityName (normalizeODataPathname pathname) = none) :
    normalizeODataPathname pathname = pathname := by
  by_cases h1 : strStartsWith pathname "/odatafeed/" = true
  · by_cases h2 : strStartsWith
        (⟨(pathname.data.drop 11).takeWhile (fun c => c ≠ '/')⟩ : String) "$" = true
    · rw [normalizeODataPathname, if_neg (by simp [h1]), if_pos h2]
    · rcases ha : lookupFirstAssoc entityPathAliases
          (⟨(pathname.data.drop 11).takeWhile (fun c => c ≠ '/')⟩ : String) with _ | replacement
      · rw [normalizeODataPathname, if_neg (by simp [h1]), if_neg h2, ha]
      · exfalso
        have hnorm : normalizeODataPathname pathname =
            "/odatafeed/" ++ replacement ++
              (⟨(pathname.data.drop 11).dropWhile (fun c => c ≠ '/')⟩ : String) := by
          rw [normalizeODataPathname, if_neg (by simp [h1]), if_neg h2, ha]
        have hrep : replacement = "owners" ∨ replacement = "CommercialOverview" := by
          simp only [entityPathAliases, lookupFirstAssoc] at ha
          split_ifs at ha <;> simp_all
        rw [hnorm, extractEntityName] at h
        rcases hrep with hrep | hrep
        · rw [hrep] at h
          have hshape : ("/odatafeed/" ++ "owners" ++
              (⟨(pathname.data.drop 11).dropWhile (fun c => c ≠ '/')⟩ : String)).data =
              "/odatafeed/".data ++
                'o' :: ("wners".data ++ (pathname.data.drop 11).dropWhile (fun c => c ≠ '/')) := rfl
          rw [hshape, extractEntityAux_marker _ _ (by decide)] at h
          cases h
        · rw [hrep] at h
          have hshape : ("/odatafeed/" ++ "CommercialOverview" ++
              (⟨(pathname.data.drop 11).dropWhile (fun c => c ≠ '/')⟩ : String)).data =
              "/odatafeed/".data ++
                'C' :: ("ommercialOverview".data ++ (pathname.data.drop 11).dropWhile (fun c => c ≠ '/')) := rfl
          rw [hshape, extractEntityAux_marker _ _ (by decide)] at h
          cases h
  · rw [normalizeODataPathname, if_pos (by simp [h1])]

theorem strIncludes_self_append (pat suf : String) :
    strIncludes (pat ++ suf) pat = true := by
  rw [strIncludes, String.data_append]
  exact containsSubList_self_append _ _

theorem strIncludes_append_str (x y pat : String) (h : strIncludes y pat = true) :
    strIncludes (x ++ y) pat = true := by
  rw [strIncludes, String.data_append]
  exact containsSubList_append_left x.data h

/-! ## Router lemmas and claim theorems -/

theorem handleProxyFetch_authed (pathname authH proxyApiKey : String)
    (search : List (String × String)) (tok : String)
    (h1 : strStartsWith authH "Bearer " = true)
    (h2 : (⟨authH.data.drop 7⟩ : String) = proxyApiKey)
    (h3 : (pathname == "/odatafeed/$metadata-summary") = false)
    (h4 : (pathname == "/odatafeed/$learn-summary") = false) :
    handleProxyFetch "GET" pathname (some authH) search proxyApiKey (Except.ok tok) =
      (true,
        if requiresFilter (extractEntityName (normalizeODataPathname pathname)) &&
            (paramsGet (validateAndFixQuery search
              (extractEntityName (normalizeODataPathname pathname))) "$filter").isNone then
          ProxyOutcome.response 400
            (jsonErrorBody (missingFilterMessage
              (extractEntityName (normalizeODataPathname pathname))))
        else
          ProxyOutcome.upstreamGet (normalizeODataPathname pathname)
            (validateAndFixQuery search (extractEntityName (normalizeODataPathname pathname)))
            tok) := by
  have hm1 : (("GET" : String) == "OPTIONS") = false := by decide
  have hm2 : (!(allowedMethods.contains "GET")) = false := by decide
  simp only [handleProxyFetch, hm1, hm2, h1, h2, h3, h4, Bool.not_true, Bool.false_eq_true,
    if_false, beq_self_eq_true, Bool.not_false, if_true, Bool.true_eq_false]
  split <;> rfl

/-- C4: a request for an entity that requires a filter, whose sanitised
query has no filter parameter, is answered 400 with a body that names the
entity and the applicable top cap, and the outcome is a direct response,
not an upstream data request. -/
theorem C4_required_filter (pathname authH proxyApiKey : String)
    (search : List (String × String)) (tok : String) (ename : String)
    (h1 : strStartsWith authH "Bearer " = true)
    (h2 : (⟨authH.data.drop 7⟩ : String) = proxyApiKey)
    (h3 : (pathname == "/odatafeed/$metadata-summary") = false)
    (h4 : (pathname == "/odatafeed/$learn-summary") = false)
    (h5 : extractEntityName (normalizeODataPathname pathname) = some ename)
    (h6 : requiresFilter (some ename) = true)
    (h7 : paramsGet (validateAndFixQuery search (some ename)) "$filter" = none) :
    handleProxyFetch "GET" pathname (some authH) search proxyApiKey (Except.ok tok) =
      (true, ProxyOutcome.response 400 (jsonErrorBody (missingFilterMessage (some ename)))) ∧
    strIncludes (jsonErrorBody (missingFilterMessage (some ename))) ename = true ∧
    strIncludes (jsonErrorBody (missingFilterMessage (some ename)))
      (intToDecString (getTopCap (some ename))) = true := by
  have hmsg : jsonErrorBody (missingFilterMessage (some ename)) =
      "\x7b\"error\":\"" ++ ("Missing required $filter for " ++ (ename ++
        (". Add a restrictive $filter (and keep $top <= " ++
          (intToDecString (getTopCap (some ename)) ++ (")." ++ "\"\x7d"))))) := by
    rw [jsonErrorBody, missingFilterMessage]
    simp only [Option.getD_some, String.append_assoc]
  refine ⟨?_, ?_, ?_⟩
  · rw [handleProxyFetch_authed pathname authH proxyApiKey search tok h1 h2 h3 h4, h5]
    rw [if_pos (by rw [h6, h7]; rfl)]
  · rw [hmsg]
    exact strIncludes_append_str _ _ _ (strIncludes_append_str _ _ _
      (strIncludes_self_append ename _))
  · rw [hmsg]
    exact strIncludes_append_str _ _ _ (strIncludes_append_str _ _ _
      (strIncludes_append_str _ _ _ (strIncludes_append_str _ _ _
        (strIncludes_self_append (intToDecString (getTopCap (some ename))) _))))

/-- C4 witness: the FinancialMutations request with only a top parameter
is rejected 400 with a body naming the entity and the cap 100, by the
claim theorem at a concrete request. -/
theorem C4_required_filter_witness :
    handleProxyFetch "GET" "/odatafeed/FinancialMutations" (some "Bearer k")
        [("$top", "10")] "k" (Except.ok "jwt") =
      (true, ProxyOutcome.response 400
        (jsonErrorBody (missingFilterMessage (some "FinancialMutations")))) ∧
    strIncludes (jsonErrorBody (missingFilterMessage (some "FinancialMutations")))
      "FinancialMutations" = true ∧
    strIncludes (jsonErrorBody (missingFilterMessage (some "FinancialMutations")))
      (intToDecString (getTopCap (some "FinancialMutations"))) = true :=
  C4_required_filter "/odatafeed/FinancialMutations" "Bearer k" "k" [("$top", "10")]
    "jwt" "FinancialMutations" (by decide) (by decide) (by decide) (by decide)
    (by decide) (by decide) (by decide)

/-- C10: an authenticated GET whose pathname yields no entity match skips
every guardrail and is forwarded upstream with the pathname and the query
parameters unmodified and the upstream JWT attached. -/
theorem C10_no_entity_passthrough (pathname authH proxyApiKey : String)
    (search : List (String × String)) (tok : String)
    (h1 : strStartsWith authH "Bearer " = true)
    (h2 : (⟨authH.data.drop 7⟩ : String) = proxyApiKey)
    (h3 : (pathname == "/odatafeed/$metadata-summary") = false)
    (h4 : (pathname == "/odatafeed/$learn-summary") = false)
    (hent : extractEntityName (normalizeODataPathname pathname) = none) :
    handleProxyFetch "GET" pathname (some authH) search proxyApiKey (Except.ok tok) =
      (true, ProxyOutcome.upstreamGet pathname search tok) := by
  rw [handleProxyFetch_authed pathname authH proxyApiKey search tok h1 h2 h3 h4, hent]
  rw [if_neg (by rw [show requiresFilter none = false from by decide]; simp)]
  rw [normalizeODataPathname_eq_of_extract_none hent]
  rfl

/-- C10 witness: a health-check pathname with no odatafeed entity match is
forwarded untouched, by the claim theorem at a concrete request. -/
theorem C10_no_entity_passthrough_witness :
    handleProxyFetch "GET" "/health" (some "Bearer k") [("x", "1")] "k" (Except.ok "jwt") =
      (true, ProxyOutcome.upstreamGet "/health" [("x", "1")] "jwt") :=
  C10_no_entity_passthrough "/health" "Bearer k" "k" [("x", "1")] "jwt"
    (by decide) (by decide) (by decide) (by decide) (by decide)

/-! ## Claim theorems: token expiry strategy and token reuse -/

/-- C6 (amended): the expiry strategy prefers a truthy JWT exp value; else
it parses the expiration string day-first, retrying month-first when the
day-first reading fails the range check of toUtcMs, where a month outside
one to twelve or a day outside one to thirty-one fails but a non-existent
in-range date such as the thirty-first of February passes and rolls over;
else it falls back to now plus fifty-five minutes. The listed concrete
behaviours include the three examples of the claim. -/
theorem C6_token_expiry_strategy :
    (∀ (v : Int) (expiration : Option String) (now : Int), ¬ v = 0 →
      computeTokenExpiry (some v) expiration now = v) ∧
    (∀ (s : String) (a b y hh mi sec : Int),
      (s == "") = false →
      matchExpirationFormat (trimChars s.data) = some (a, b, y, hh, mi, sec) →
      1 ≤ b → b ≤ 12 → 1 ≤ a → a ≤ 31 →
      ¬ jsDateUTC y (b - 1) a hh mi sec = 0 →
      parseBloxsExpirationMs s = some (jsDateUTC y (b - 1) a hh mi sec)) ∧
    (∀ now : Int, computeTokenExpiry none (some "01/10/2026 16:42:26") now =
      jsDateUTC 2026 9 1 16 42 26) ∧
    jsDateUTC 2026 9 1 16 42 26 = 1790872946000 ∧
    (∀ now : Int, computeTokenExpiry none (some "13/01/2026 00:00:00") now = 1768262400000) ∧
    (∀ now : Int, computeTokenExpiry none (some "01/13/2026 00:00:00") now = 1768262400000) ∧
    (1768262400000 : Int) = jsDateUTC 2026 0 13 0 0 0 ∧
    (∀ now : Int, computeTokenExpiry none none now = now + 55 * 60 * 1000) ∧
    (∀ now : Int, computeTokenExpiry none (some "opaque-not-jwt") now = now + 55 * 60 * 1000) := by
  refine ⟨?_, ?_, ?_, by decide, ?_, ?_, by decide, ?_, ?_⟩
  · intro v expiration now hv
    simp only [computeTokenExpiry]
    rw [if_neg hv]
  · intro s a b y hh mi sec hs hm hb1 hb2 ha1 ha2 hnz
    have hne : ¬ ((s == "") = true) := by
      rw [hs]
      exact Bool.noConfusion
    rw [parseBloxsExpirationMs, if_neg hne]
    simp only [hm]
    have ht : toUtcMs y b a hh mi sec = some (jsDateUTC y (b - 1) a hh mi sec) := by
      rw [toUtcMs, if_neg (by omega)]
    rw [ht, jsTruthyMs, if_neg hnz]
  · intro now
    simp only [computeTokenExpiry,
      show parseBloxsExpirationMs "01/10/2026 16:42:26" = some 1790872946000 from by decide]
    rw [if_neg (by decide)]
    decide
  · intro now
    simp only [computeTokenExpiry,
      show parseBloxsExpirationMs "13/01/2026 00:00:00" = some 1768262400000 from by decide]
    rw [if_neg (by decide)]
  · intro now
    simp only [computeTokenExpiry,
      show parseBloxsExpirationMs "01/13/2026 00:00:00" = some 1768262400000 from by decide]
    rw [if_neg (by decide)]
  · intro now
    rfl
  · intro now
    simp only [computeTokenExpiry,
      show parseBloxsExpirationMs "opaque-not-jwt" = none from by decide]

/-- C6 witness: the day-first law of the amended theorem applied to the
twenty-fifth of December, a date whose day-first reading passes the range
check. -/
theorem C6_token_expiry_strategy_witness :
    parseBloxsExpirationMs "25/12/2026" = some (jsDateUTC 2026 (12 - 1) 25 0 0 0) :=
  C6_token_expiry_strategy.2.1 "25/12/2026" 25 12 2026 0 0 0
    (by decide) (by decide) (by decide) (by decide) (by decide) (by decide) (by decide)

/-- C6 counterexample: the thirty-first of February is not a calendar
date, so by the claim the day-first reading must be rejected and, with the
month-first reading also failing, the expiry must fall back to now plus
fifty-five minutes; the code instead accepts the day-first reading through
its range check and Date.UTC rolls it to the third of March 2026. -/
theorem C6_counterexample_feb31 :
    parseBloxsExpirationMs "31/02/2026 00:00:00" = some 1772496000000 ∧
    jsDateUTC 2026 2 3 0 0 0 = 1772496000000 ∧
    computeTokenExpiry none (some "31/02/2026 00:00:00") 0 = 1772496000000 ∧
    ¬ (1772496000000 : Int) = 0 + 55 * 60 * 1000 := by
  refine ⟨by decide, by decide, ?_, by decide⟩
  simp only [computeTokenExpiry,
    show parseBloxsExpirationMs "31/02/2026 00:00:00" = some 1772496000000 from by decide]
  rw [if_neg (by decide)]

/-- C8 (amended): while the cache holds a nonempty token and strictly more
than five minutes remain before its recorded expiry, acquiring a token
returns the cached JWT, leaves the cache unchanged and issues no auth
request; and an auth request is issued exactly when the cache is empty or
at most five minutes remain. -/
theorem C8_token_reuse (st : TokenCacheState) (now : Int) (freshToken : String)
    (jm : Option Int) (fe : Option String) :
    (∀ t, st.cachedToken = some t → (t == "") = false → st.tokenExpiry - now > 300000 →
      getBloxsTokenStep st now freshToken jm fe = (t, st, false)) ∧
    ((getBloxsTokenStep st now freshToken jm fe).2.2 = true ↔
      tokenIsTruthy st.cachedToken = false ∨ st.tokenExpiry - now ≤ 300000) := by
  constructor
  · intro t hct hne hwin
    rw [getBloxsTokenStep]
    rw [if_pos (by
      rw [hct, tokenIsTruthy, hne]
      simp only [Bool.not_false, Bool.true_and]
      exact decide_eq_true (by omega))]
    rw [hct]
    rfl
  · rw [getBloxsTokenStep]
    by_cases hc : (tokenIsTruthy st.cachedToken && decide (st.tokenExpiry > now + 300000)) = true
    · rw [if_pos hc]
      rw [Bool.and_eq_true] at hc
      obtain ⟨hti, hdec⟩ := hc
      have hgt := of_decide_eq_true hdec
      show (false = true) ↔ _
      constructor
      · intro hcontra
        exact absurd hcontra (by simp)
      · rintro (hf | hle)
        · rw [hti] at hf
          cases hf
        · omega
    · rw [if_neg hc]
      show (true = true) ↔ _
      constructor
      · intro _
        by_cases hti : tokenIsTruthy st.cachedToken = true
        · right
          have hdec : decide (st.tokenExpiry > now + 300000) = false := by
            cases hd : decide (st.tokenExpiry > now + 300000)
            · rfl
            · exact absurd (by rw [hti, hd]; rfl) hc
          have := of_decide_eq_false hdec
          omega
        · left
          cases ht : tokenIsTruthy st.cachedToken
          · rfl
          · exact absurd ht hti
      · intro _
        rfl

/-- C8 witness: a populated cache with plenty of remaining lifetime serves
the cached token with no auth request, by the reuse theorem at a concrete
cache state. -/
theorem C8_token_reuse_witness :
    getBloxsTokenStep ⟨some "jwt", 1000000⟩ 0 "fresh" none none =
      ("jwt", ⟨some "jwt", 1000000⟩, false) :=
  (C8_token_reuse ⟨some "jwt", 1000000⟩ 0 "fresh" none none).1 "jwt" rfl
    (by decide) (by decide)

/-- C8 counterexample: at the instant exactly five minutes before the
recorded expiry, inside the closed window of the claim, the code issues a
fresh auth request instead of returning the cached token. -/
theorem C8_counterexample_window_endpoint :
    getBloxsTokenStep ⟨some "jwt", 300000⟩ 0 "fresh-jwt" none none =
      ("fresh-jwt", ⟨some "fresh-jwt", 3300000⟩, true) ∧
    ¬ ("fresh-jwt" : String) = "jwt" := by
  exact ⟨by decide, by decide⟩

/-! ## Claim theorem: learner confidentiality -/

theorem mem_insertSorted {s f : String} :
    ∀ l : List String, f ∈ insertSorted s l ↔ f = s ∨ f ∈ l := by
  intro l
  induction l with
  | nil => simp [insertSorted]
  | cons t rest ih =>
    rw [insertSorted]
    by_cases hc : charListLe s.data t.data = true
    · rw [if_pos hc]
      simp
    · rw [if_neg hc]
      simp only [List.mem_cons, ih]
      tauto

theorem mem_sortStrings {f : String} {l : List String} :
    f ∈ sortStrings l ↔ f ∈ l := by
  induction l with
  | nil => simp [sortStrings]
  | cons t rest ih =>
    rw [sortStrings, List.foldr_cons]
    rw [show List.foldr insertSorted [] rest = sortStrings rest from rfl]
    rw [mem_insertSorted]
    simp only [List.mem_cons, ih]

theorem mem_dedupAppend {f : String} :
    ∀ (ks acc : List String), f ∈ dedupAppend acc ks → f ∈ acc ∨ f ∈ ks := by
  intro ks
  induction ks with
  | nil =>
    intro acc h
    exact Or.inl h
  | cons k rest ih =>
    intro acc h
    rw [dedupAppend, List.foldl_cons] at h
    have h' := ih (if acc.contains k then acc else acc ++ [k]) (by
      rw [dedupAppend]
      exact h)
    rcases h' with hacc | hrest
    · by_cases hc : acc.contains k = true
      · rw [if_pos hc] at hacc
        exact Or.inl hacc
      · rw [if_neg hc] at hacc
        rcases List.mem_append.mp hacc with h1 | h2
        · exact Or.inl h1
        · have : f = k := by simpa using h2
          exact Or.inr (by rw [this]; exact List.mem_cons_self _ _)
    · exact Or.inr (List.mem_cons_of_mem _ hrest)

theorem mem_keysFoldl {f : String} :
    ∀ (l : List Json) (acc : List String),
      f ∈ l.foldl (fun acc row => dedupAppend acc (rowTopLevelKeys row)) acc →
      f ∈ acc ∨ ∃ row ∈ l, f ∈ rowTopLevelKeys row := by
  intro l
  induction l with
  | nil =>
    intro acc h
    exact Or.inl h
  | cons row rest ih =>
    intro acc h
    rw [List.foldl_cons] at h
    rcases ih _ h with hacc | ⟨row', hrow', hf⟩
    · rcases mem_dedupAppend (rowTopLevelKeys row) acc hacc with h1 | h2
      · exact Or.inl h1
      · exact Or.inr ⟨row, List.mem_cons_self _ _, h2⟩
    · exact Or.inr ⟨row', List.mem_cons_of_mem _ hrow', hf⟩

theorem mem_discoveredFields {f : String} {values : List Json}
    (h : f ∈ discoveredFields values) :
    ∃ row ∈ values.take (min values.length 5), f ∈ rowTopLevelKeys row := by
  rw [discoveredFields] at h
  rcases mem_keysFoldl _ _ h with hnil | hex
  · cases hnil
  · exact hex

theorem take_min_five (l : List Json) : l.take (min l.length 5) = l.take 5 := by
  rw [List.take_eq_take]
  omega

theorem keysFoldl_eq_map :
    ∀ (l : List Json) (acc : List String),
      l.foldl (fun acc row => dedupAppend acc (rowTopLevelKeys row)) acc =
      (l.map rowTopLevelKeys).foldl dedupAppend acc := by
  intro l
  induction l with
  | nil => intro acc; rfl
  | cons row rest ih =>
    intro acc
    rw [List.foldl_cons, List.map_cons, List.foldl_cons, ih]

theorem discoveredFields_congr {v1 v2 : List Json}
    (hmap : (v1.take 5).map rowTopLevelKeys = (v2.take 5).map rowTopLevelKeys)
    (hmin : min v1.length 5 = min v2.length 5) :
    discoveredFields v1 = discoveredFields v2 := by
  rw [discoveredFields, discoveredFields, take_min_five, take_min_five,
    keysFoldl_eq_map, keysFoldl_eq_map, hmap]

/-- C9 (amended): every field string written by the learner is a top-level
non-odata property name drawn from at most the first five rows of the
response, or is carried over from the previously stored record; the
written record depends only on those per-row key lists, the sample bound,
the previous record, the entity name and the clock, never on row values;
and a write happens only when a new field was observed or more than a day
passed since the last write. -/
theorem C9_learner_confidentiality :
    (∀ (ename : String) (body : Json) (existing : Option LearnedEntityRecord)
        (now : Int) (rec : LearnedEntityRecord) (rows : List Json),
      responseValueRows body = some rows →
      maybeLearnFromOData (some ename) (some body) existing now true true = some rec →
      ∀ f ∈ rec.fields,
        (∃ r0, existing = some r0 ∧ f ∈ r0.fields) ∨
        ∃ row ∈ rows.take (min rows.length 5), f ∈ rowTopLevelKeys row) ∧
    (∀ (ename : String) (existing : Option LearnedEntityRecord) (now : Int)
        (b1 b2 : Json) (rows1 rows2 : List Json),
      responseValueRows b1 = some rows1 → responseValueRows b2 = some rows2 →
      min rows1.length 5 = min rows2.length 5 →
      (rows1.take 5).map rowTopLevelKeys = (rows2.take 5).map rowTopLevelKeys →
      maybeLearnFromOData (some ename) (some b1) existing now true true =
        maybeLearnFromOData (some ename) (some b2) existing now true true) ∧
    (∀ (ename : String) (body : Json) (existing : Option LearnedEntityRecord)
        (now : Int) (rec : LearnedEntityRecord) (rows : List Json),
      responseValueRows body = some rows →
      maybeLearnFromOData (some ename) (some body) existing now true true = some rec →
      (discoveredFields rows).all (fun f => (existingFieldSet existing).contains f) = false ∨
        now - existingLastWriteMs existing > 24 * 60 * 60 * 1000) := by
  refine ⟨?_, ?_, ?_⟩
  · intro ename body existing now rec rows hrows hm f hf
    simp only [maybeLearnFromOData, Bool.not_true, Bool.false_eq_true, if_false, hrows] at hm
    split at hm
    · cases hm
    · split at hm
      · cases hm
      · split at hm
        · cases hm
        · have hrec := Option.some.inj hm
          rw [← hrec] at hf
          simp only at hf
          have hf' := mem_sortStrings.mp hf
          rcases mem_dedupAppend _ _ hf' with hex | hdisc
          · left
            cases existing with
            | none => cases hex
            | some r0 =>
              rcases mem_dedupAppend _ _ hex with h0 | h1
              · cases h0
              · exact ⟨r0, rfl, h1⟩
          · right
            exact mem_discoveredFields hdisc
  · intro ename existing now b1 b2 rows1 rows2 h1 h2 hmin hmap
    have hie : rows1.isEmpty = rows2.isEmpty := by
      rcases rows1 with _ | ⟨a, as⟩ <;> rcases rows2 with _ | ⟨b, bs⟩
      · rfl
      · exfalso
        simp only [List.length_nil, List.length_cons] at hmin
        omega
      · exfalso
        simp only [List.length_nil, List.length_cons] at hmin
        omega
      · rfl
    have hdf := discoveredFields_congr hmap hmin
    simp only [maybeLearnFromOData, h1, h2, hie, hdf, hmin]
  · intro ename body existing now rec rows hrows hm
    simp only [maybeLearnFromOData, Bool.not_true, Bool.false_eq_true, if_false, hrows] at hm
    split at hm
    · cases hm
    · split at hm
      · cases hm
      · split at hm
        · cases hm
        · next hcond =>
          by_cases hall : (discoveredFields rows).all
              (fun f => (existingFieldSet existing).contains f) = true
          · right
            by_cases hd : decide (now - existingLastWriteMs existing > 24 * 60 * 60 * 1000) = true
            · exact of_decide_eq_true hd
            · exfalso
              apply hcond
              rw [hall, Bool.true_and]
              cases hdv : decide (now - existingLastWriteMs existing > 24 * 60 * 60 * 1000)
              · rfl
              · exact absurd hdv hd
          · left
            cases ha : (discoveredFields rows).all (fun f => (existingFieldSet existing).contains f)
            · rfl
            · exact absurd ha hall

/-- C9 witness: for the concrete write of the counterexample input, the
field Apple put into the stored record indeed comes from the single
sampled row, by the provenance component of the claim theorem. -/
theorem C9_learner_confidentiality_witness :
    (∃ r0, (some (⟨"Units", "units", ["Zebra"], 1, 1, 0, 0⟩ : LearnedEntityRecord)) = some r0 ∧
      "Apple" ∈ r0.fields) ∨
    ∃ row ∈ ([Json.obj [("Apple", Json.str "street 1")]].take
        (min ([Json.obj [("Apple", Json.str "street 1")]] : List Json).length 5)),
      "Apple" ∈ rowTopLevelKeys row :=
  C9_learner_confidentiality.1 "Units"
    (Json.obj [("value", Json.arr [Json.obj [("Apple", Json.str "street 1")]])])
    (some ⟨"Units", "units", ["Zebra"], 1, 1, 0, 0⟩) 1
    ⟨"Units", "units", ["Apple", "Zebra"], 2, 1, 1, 1⟩
    [Json.obj [("Apple", Json.str "street 1")]]
    rfl (by decide) "Apple" (by decide)

/-- C9 counterexample: a stored record carrying the field Zebra merged
with a response whose single row has only the key Apple produces a write
whose fields array contains Zebra, a string that is not a top-level
property name of any sampled row of this response, contradicting the
claim as frozen. -/
theorem C9_counterexample_carryover :
    maybeLearnFromOData (some "Units")
      (some (Json.obj [("value", Json.arr [Json.obj [("Apple", Json.str "street 1")]])]))
      (some ⟨"Units", "units", ["Zebra"], 1, 1, 0, 0⟩) 1 true true =
      some ⟨"Units", "units", ["Apple", "Zebra"], 2, 1, 1, 1⟩ ∧
    "Zebra" ∈ (["Apple", "Zebra"] : List String) ∧
    rowTopLevelKeys (Json.obj [("Apple", Json.str "street 1")]) = ["Apple"] ∧
    ¬ "Zebra" ∈ (["Apple"] : List String) := by
  exact ⟨by decide, by decide, by decide, by decide⟩
